import Mathlib

/-!
Verification of the `gridthings` grid library (src/lib.rs) and its
AoC 2023 day 3 example (examples/aoc_2023_day03/main.rs).

The Rust code is shallowly embedded: `Cell<T>` and `Grid<T>` become Lean
structures, `Vec` becomes `List`, `Option<&Cell<T>>` becomes
`Option (Cell α)` (lookups clone, so values suffice), `usize::checked_sub`
becomes `checked_sub : Nat → Nat → Option Nat`, and the panicking
digit-parsing constructor becomes an `Except Char` computation whose error
carries the offending character.
-/

namespace Gridthings

/-- Embedding of `Cell<T>`: `y` is the row number (0 is top), `x` the column
number (0 is left-most), `value` the payload.  Rust derives structural
equality and hashing; here `DecidableEq` gives structural equality. -/
structure Cell (α : Type) where
  y : Nat
  x : Nat
  value : α
deriving DecidableEq

/-- Embedding of `Grid<T>`: `data: Vec<Vec<Cell<T>>>`. -/
structure Grid (α : Type) where
  data : List (List (Cell α))
deriving DecidableEq

/-- Embedding of `usize::checked_sub`: `a - b`, or `none` when the
subtraction would underflow below zero (never wraps). -/
def checked_sub (a b : Nat) : Option Nat :=
  if b ≤ a then some (a - b) else none

/-- Embedding of `Grid::get`: `self.data.get(y).and_then(|row| row.get(x))`. -/
def Grid.get (g : Grid α) (y x : Nat) : Option (Cell α) :=
  (g.data.get? y).bind fun row => row.get? x

/-- Embedding of `Grid::rows`: the rows in row-major order. -/
def Grid.rows (g : Grid α) : List (List (Cell α)) :=
  g.data

/-- Embedding of `Grid::peek_horizontal`: push the cell at
`x.checked_sub(offset)` (when the subtraction succeeds and the cell exists),
then the cell at `x + offset` (when it exists). -/
def Grid.peek_horizontal (g : Grid α) (y x offset : Nat) : List (Cell α) :=
  (match checked_sub x offset with
   | some look_left => (g.get y look_left).toList
   | none => [])
  ++ (g.get y (x + offset)).toList

/-- Embedding of `Grid::peek_vertical`: push the cell at
`y.checked_sub(offset)` (when the subtraction succeeds and the cell exists),
then the cell at `y + offset` (when it exists). -/
def Grid.peek_vertical (g : Grid α) (y x offset : Nat) : List (Cell α) :=
  (match checked_sub y offset with
   | some look_up => (g.get look_up x).toList
   | none => [])
  ++ (g.get (y + offset) x).toList

/-- Embedding of `Grid::peek_linear`: `peek_horizontal` then
`peek_vertical`. -/
def Grid.peek_linear (g : Grid α) (y x offset : Nat) : List (Cell α) :=
  g.peek_horizontal y x offset ++ g.peek_vertical y x offset

/-- Embedding of `Grid::peek_diagonal`: up-left, up-right, down-left,
down-right, each guarded by the success of the relevant checked
subtractions. -/
def Grid.peek_diagonal (g : Grid α) (y x offset : Nat) : List (Cell α) :=
  (match checked_sub y offset, checked_sub x offset with
   | some look_up, some look_left => (g.get look_up look_left).toList
   | _, _ => [])
  ++ (match checked_sub y offset with
      | some look_up => (g.get look_up (x + offset)).toList
      | none => [])
  ++ (match checked_sub x offset with
      | some look_left => (g.get (y + offset) look_left).toList
      | none => [])
  ++ (g.get (y + offset) (x + offset)).toList

/-- Embedding of `Grid::peek_all`: `peek_linear` then `peek_diagonal`. -/
def Grid.peek_all (g : Grid α) (y x offset : Nat) : List (Cell α) :=
  g.peek_linear y x offset ++ g.peek_diagonal y x offset

/-- Strip one leading carriage return.  Accumulators in `linesAux` are kept
reversed, so a leading `'\r'` here is a trailing `'\r'` of the line, which
Rust's `str::lines` removes before a line feed. -/
def stripLeadCR (l : List Char) : List Char :=
  match l with
  | [] => []
  | c :: rest => if c = '\r' then rest else l

/-- Split a character list at every `'\n'`, stripping a `'\r'` that
immediately precedes a `'\n'`; the accumulator holds the current line
reversed.  Always returns at least one (possibly empty) segment. -/
def linesAux : List Char → List Char → List (List Char)
  | [], acc => [acc.reverse]
  | c :: rest, acc =>
    if c = '\n' then (stripLeadCR acc).reverse :: linesAux rest []
    else linesAux rest (c :: acc)

/-- Embedding of Rust's `str::lines` iterator: lines are split at `'\n'`
(also consuming a preceding `'\r'`), and a final trailing line terminator
produces no extra empty line. -/
def rustLines (text : List Char) : List (List Char) :=
  if (linesAux text []).getLast? = some [] then (linesAux text []).dropLast
  else linesAux text []

/-- Embedding of `GridFromString<char> for Grid<char>`: one row per line,
one `char`-valued cell per character, coordinates assigned by enumeration
order. -/
def fromStringChar (text : List Char) : Grid Char :=
  ⟨(rustLines text).enum.map fun p =>
    p.2.enum.map fun q => ⟨p.1, q.1, q.2⟩⟩

/-- Embedding of `char::to_digit(10)`: the numeric value of a base-10 digit
character, `none` otherwise. -/
def toDigit10 (c : Char) : Option Nat :=
  if '0' ≤ c ∧ c ≤ '9' then some (c.toNat - '0'.toNat) else none

/-- Map a fallible function over a list, stopping at the first failure
(the embedding of a Rust loop that panics on the first bad element). -/
def mapExcept (f : α → Except ε β) : List α → Except ε (List β)
  | [] => Except.ok []
  | a :: l =>
    match f a with
    | Except.error e => Except.error e
    | Except.ok b =>
      match mapExcept f l with
      | Except.error e => Except.error e
      | Except.ok bs => Except.ok (b :: bs)

/-- One cell of the digit-parsing construction: `to_digit(10)` on the
character, the failure carrying the offending character (the panic message
of the Rust code interpolates exactly that character). -/
def digitCell (y x : Nat) (ch : Char) : Except Char (Cell Int) :=
  match toDigit10 ch with
  | some d => Except.ok ⟨y, x, (d : Int)⟩
  | none => Except.error ch

/-- One row of the digit-parsing construction: parse every enumerated
character of the line, stopping at the first failure. -/
def digitRow (p : Nat × List Char) : Except Char (List (Cell Int)) :=
  mapExcept (fun q => digitCell p.1 q.1 q.2) p.2.enum

/-- Embedding of `GridFromString<i32> for Grid<i32>`: like the `char` mode
but each character is parsed with `to_digit(10)`; the Rust code panics on
the first character that fails, which the embedding renders as `Except.error`
carrying that character, so construction is all-or-nothing. -/
def fromStringI32 (text : List Char) : Except Char (Grid Int) :=
  match mapExcept digitRow (rustLines text).enum with
  | Except.error e => Except.error e
  | Except.ok rows => Except.ok ⟨rows⟩

/-- Embedding of the example's `Number` struct: the cells of one contiguous
digit run. -/
structure Number where
  cells : List (Cell Char)
deriving DecidableEq

/-- Embedding of `Number::peek_all`: for each cell of the run, gather
`grid.peek_all(cell.y, cell.x, 1)`, keeping a result only if it is neither
part of the run itself nor already gathered (the consumer-side
deduplication). -/
def Number.peekAllDedup (n : Number) (g : Grid Char) : List (Cell Char) :=
  n.cells.foldl
    (fun found cell =>
      (g.peek_all cell.y cell.x 1).foldl
        (fun ms result =>
          if result ∈ n.cells ∨ result ∈ ms then ms else ms ++ [result])
        found)
    []

/-- Embedding of `Number::symbol_adjacent`: true iff some adjacent cell
holds a value that is neither a base-10 digit nor `'.'`. -/
def Number.symbol_adjacent (n : Number) (g : Grid Char) : Bool :=
  (n.peekAllDedup g).any fun cell => !cell.value.isDigit && cell.value != '.'

/-- Embedding of the number-extraction loop in the example's `main`: walk
the rows in order, collecting consecutive digit cells; flush the current
collection into a `Number` on the first non-digit cell and at the end of
each row. -/
def extractNumbers (g : Grid Char) : List Number :=
  (g.rows.foldl
    (fun acc row =>
      let acc2 := row.foldl
        (fun acc cell =>
          if cell.value.isDigit then (acc.1, acc.2 ++ [cell])
          else if acc.2 ≠ [] then (acc.1 ++ [Number.mk acc.2], [])
          else acc)
        acc
      if acc2.2 ≠ [] then (acc2.1 ++ [Number.mk acc2.2], []) else acc2)
    (([], []) : List Number × List (Cell Char))).1

/-- The bundled sample text of the example's `main`, including its leading
newline (the raw string literal opens with a line break). -/
def sampleText : List Char :=
  ("\n467..114..\n...*......\n..35..633.\n......#...\n617*......\n"
    ++ ".....+.58.\n..592.....\n......755.\n...$.*....\n.664.598..\n").toList

/-- The grid the example builds from the bundled sample text. -/
def sampleGrid : Grid Char :=
  fromStringChar sampleText

/-- Rendering of the spec's description of `peek_horizontal`, written with
signed arithmetic: the cell at `col - offset` (omitted when that value is
below zero), then the cell at `col + offset`, each only if present. -/
def peekHorizontalSpec (g : Grid α) (y x offset : Nat) : List (Cell α) :=
  (if 0 ≤ (x : Int) - (offset : Int)
   then (g.get y ((x : Int) - (offset : Int)).toNat).toList else [])
  ++ (g.get y (x + offset)).toList

/-- Rendering of the spec's description of `peek_vertical`: symmetric to
`peekHorizontalSpec` on the row coordinate, up before down. -/
def peekVerticalSpec (g : Grid α) (y x offset : Nat) : List (Cell α) :=
  (if 0 ≤ (y : Int) - (offset : Int)
   then (g.get ((y : Int) - (offset : Int)).toNat x).toList else [])
  ++ (g.get (y + offset) x).toList

/-- Rendering of the spec's description of `peek_diagonal`: up-left,
up-right, down-left, down-right, each present only when its signed row and
column components are both non-negative and the cell exists. -/
def peekDiagonalSpec (g : Grid α) (y x offset : Nat) : List (Cell α) :=
  (if 0 ≤ (y : Int) - (offset : Int) ∧ 0 ≤ (x : Int) - (offset : Int)
   then (g.get ((y : Int) - (offset : Int)).toNat
           ((x : Int) - (offset : Int)).toNat).toList else [])
  ++ (if 0 ≤ (y : Int) - (offset : Int)
      then (g.get ((y : Int) - (offset : Int)).toNat (x + offset)).toList else [])
  ++ (if 0 ≤ (x : Int) - (offset : Int)
      then (g.get (y + offset) ((x : Int) - (offset : Int)).toNat).toList else [])
  ++ (g.get (y + offset) (x + offset)).toList

/-- A grid is coordinate-consistent when every stored cell records the
position it occupies (the data-model invariant of the spec). -/
def Grid.WF (g : Grid α) : Prop :=
  ∀ y x c, g.get y x = some c → c.y = y ∧ c.x = x

/-- A small concrete grid used to instantiate universally quantified
theorems. -/
def gridW : Grid Char :=
  fromStringChar ("ab\ncd".toList)

/-- A 3×3 concrete grid whose centre has all eight neighbours. -/
def gridW3 : Grid Char :=
  fromStringChar ("abc\ndef\nghi".toList)

lemma toList_length_le (o : Option β) : o.toList.length ≤ 1 := by
  cases o <;> simp

lemma eq_some_of_mem_toList {o : Option β} {c : β} (h : c ∈ o.toList) :
    o = some c := by
  cases o with
  | none => simp at h
  | some b => simp at h; rw [h]

lemma checked_sub_eq_none {a b : Nat} (h : a < b) : checked_sub a b = none := by
  rw [checked_sub, if_neg]; omega

lemma checked_sub_eq_some {a b : Nat} (h : b ≤ a) :
    checked_sub a b = some (a - b) := by
  rw [checked_sub, if_pos h]

/-- Claim C1: every peek operation omits a look-back/look-up neighbour
whenever subtracting the offset from the unsigned coordinate would go below
zero (checked, never wrapped): under an underflowing subtraction, every cell
the peek still returns comes from an additive (never a wrapped) position.
No query signals an error: all peeks are total functions into plain lists.
At row 0 or col 0 this applies at every positive offset, so no
underflow-derived false neighbour appears. -/
theorem peeks_omit_underflow (g : Grid α) (y x offset : Nat) :
    (x < offset → ∀ c ∈ g.peek_horizontal y x offset, g.get y (x + offset) = some c) ∧
    (y < offset → ∀ c ∈ g.peek_vertical y x offset, g.get (y + offset) x = some c) ∧
    (y < offset → ∀ c ∈ g.peek_diagonal y x offset, ∃ x2, g.get (y + offset) x2 = some c) ∧
    (x < offset → ∀ c ∈ g.peek_diagonal y x offset, ∃ y2, g.get y2 (x + offset) = some c) := by
  refine ⟨?_, ?_, ?_, ?_⟩
  · intro h c hc
    rw [Grid.peek_horizontal, checked_sub_eq_none h] at hc
    simp only [List.nil_append] at hc
    exact eq_some_of_mem_toList hc
  · intro h c hc
    rw [Grid.peek_vertical, checked_sub_eq_none h] at hc
    simp only [List.nil_append] at hc
    exact eq_some_of_mem_toList hc
  · intro h c hc
    rcases hx : checked_sub x offset with _ | l
    · rw [Grid.peek_diagonal, checked_sub_eq_none h, hx] at hc
      simp only [List.nil_append] at hc
      exact ⟨x + offset, eq_some_of_mem_toList hc⟩
    · rw [Grid.peek_diagonal, checked_sub_eq_none h, hx] at hc
      simp only [List.nil_append, List.mem_append] at hc
      rcases hc with hc | hc
      · exact ⟨l, eq_some_of_mem_toList hc⟩
      · exact ⟨x + offset, eq_some_of_mem_toList hc⟩
  · intro h c hc
    rcases hy : checked_sub y offset with _ | u
    · rw [Grid.peek_diagonal, checked_sub_eq_none h, hy] at hc
      simp only [List.nil_append] at hc
      exact ⟨y + offset, eq_some_of_mem_toList hc⟩
    · rw [Grid.peek_diagonal, checked_sub_eq_none h, hy] at hc
      simp only [List.nil_append, List.append_nil, List.mem_append,
        List.not_mem_nil, or_false, false_or] at hc
      rcases hc with hc | hc
      · exact ⟨u, eq_some_of_mem_toList hc⟩
      · exact ⟨y + offset, eq_some_of_mem_toList hc⟩

/-- Witness for C1 at a concrete grid and coordinate: at (0, 0) with offset
1 every hypothesis of `peeks_omit_underflow` holds. -/
theorem peeks_omit_underflow_witness :
    (∀ c ∈ gridW.peek_horizontal 0 0 1, gridW.get 0 (0 + 1) = some c) ∧
    (∀ c ∈ gridW.peek_vertical 0 0 1, gridW.get (0 + 1) 0 = some c) ∧
    (∀ c ∈ gridW.peek_diagonal 0 0 1, ∃ x2, gridW.get (0 + 1) x2 = some c) ∧
    (∀ c ∈ gridW.peek_diagonal 0 0 1, ∃ y2, gridW.get y2 (0 + 1) = some c) :=
  ⟨(peeks_omit_underflow gridW 0 0 1).1 (by decide),
   (peeks_omit_underflow gridW 0 0 1).2.1 (by decide),
   (peeks_omit_underflow gridW 0 0 1).2.2.1 (by decide),
   (peeks_omit_underflow gridW 0 0 1).2.2.2 (by decide)⟩

lemma sub_cast_nonneg_iff (a b : Nat) :
    (0 ≤ (a : Int) - (b : Int)) ↔ b ≤ a := by
  omega

lemma sub_cast_toNat (a b : Nat) : ((a : Int) - (b : Int)).toNat = a - b := by
  omega

/-- Claim C4: `peek_horizontal` returns at most two cells — the one at
`col - offset` first (omitted on underflow or absence), then the one at
`col + offset` — and `peek_vertical` is the symmetric operation on the row
coordinate (up before down): both agree with the spec's signed-arithmetic
description and are bounded by two results. -/
theorem peek_hv_refine_spec (g : Grid α) (y x offset : Nat) :
    g.peek_horizontal y x offset = peekHorizontalSpec g y x offset ∧
    g.peek_vertical y x offset = peekVerticalSpec g y x offset ∧
    (g.peek_horizontal y x offset).length ≤ 2 ∧
    (g.peek_vertical y x offset).length ≤ 2 := by
  refine ⟨?_, ?_, ?_, ?_⟩
  · by_cases h : offset ≤ x
    · rw [Grid.peek_horizontal, checked_sub_eq_some h, peekHorizontalSpec,
        if_pos ((sub_cast_nonneg_iff x offset).mpr h), sub_cast_toNat]
    · rw [Grid.peek_horizontal, checked_sub_eq_none (by omega), peekHorizontalSpec,
        if_neg (by rw [sub_cast_nonneg_iff]; omega)]
  · by_cases h : offset ≤ y
    · rw [Grid.peek_vertical, checked_sub_eq_some h, peekVerticalSpec,
        if_pos ((sub_cast_nonneg_iff y offset).mpr h), sub_cast_toNat]
    · rw [Grid.peek_vertical, checked_sub_eq_none (by omega), peekVerticalSpec,
        if_neg (by rw [sub_cast_nonneg_iff]; omega)]
  · have h2 := toList_length_le (g.get y (x + offset))
    rcases hcs : checked_sub x offset with _ | l
    · simp only [Grid.peek_horizontal, hcs, List.nil_append]; omega
    · have h1 := toList_length_le (g.get y l)
      simp only [Grid.peek_horizontal, hcs, List.length_append]; omega
  · have h2 := toList_length_le (g.get (y + offset) x)
    rcases hcs : checked_sub y offset with _ | u
    · simp only [Grid.peek_vertical, hcs, List.nil_append]; omega
    · have h1 := toList_length_le (g.get u x)
      simp only [Grid.peek_vertical, hcs, List.length_append]; omega

/-- Claim C3: `peek_diagonal` returns, in the fixed order up-left,
up-right, down-left, down-right, exactly those diagonal cells at distance
`offset` that exist, each guarded by the success of the relevant checked
subtractions (matching the spec's signed-arithmetic description), and
returns at most four cells. -/
theorem peek_diagonal_refines_spec (g : Grid α) (y x offset : Nat) :
    g.peek_diagonal y x offset = peekDiagonalSpec g y x offset ∧
    (g.peek_diagonal y x offset).length ≤ 4 := by
  constructor
  · rw [Grid.peek_diagonal, peekDiagonalSpec]
    by_cases hy : offset ≤ y <;> by_cases hx : offset ≤ x
    · rw [checked_sub_eq_some hy, checked_sub_eq_some hx,
        if_pos ⟨(sub_cast_nonneg_iff y offset).mpr hy,
          (sub_cast_nonneg_iff x offset).mpr hx⟩,
        if_pos ((sub_cast_nonneg_iff y offset).mpr hy),
        if_pos ((sub_cast_nonneg_iff x offset).mpr hx),
        sub_cast_toNat, sub_cast_toNat]
    · rw [checked_sub_eq_some hy, checked_sub_eq_none (by omega),
        if_neg (by rw [sub_cast_nonneg_iff x offset] at *; omega),
        if_pos ((sub_cast_nonneg_iff y offset).mpr hy),
        if_neg (by rw [sub_cast_nonneg_iff]; omega),
        sub_cast_toNat]
    · rw [checked_sub_eq_none (by omega), checked_sub_eq_some hx,
        if_neg (by rw [sub_cast_nonneg_iff y offset] at *; omega),
        if_neg (by rw [sub_cast_nonneg_iff]; omega),
        if_pos ((sub_cast_nonneg_iff x offset).mpr hx),
        sub_cast_toNat]
    · rw [checked_sub_eq_none (show y < offset by omega),
        checked_sub_eq_none (show x < offset by omega),
        if_neg (by rw [sub_cast_nonneg_iff y offset] at *; omega),
        if_neg (by rw [sub_cast_nonneg_iff]; omega),
        if_neg (by rw [sub_cast_nonneg_iff]; omega)]
  · have h4 := toList_length_le (g.get (y + offset) (x + offset))
    rcases hy : checked_sub y offset with _ | u <;>
      rcases hx : checked_sub x offset with _ | l
    · simp only [Grid.peek_diagonal, hy, hx, List.nil_append]; omega
    · have h3 := toList_length_le (g.get (y + offset) l)
      simp only [Grid.peek_diagonal, hy, hx, List.nil_append, List.length_nil, List.length_append]; omega
    · have h2 := toList_length_le (g.get u (x + offset))
      simp only [Grid.peek_diagonal, hy, hx, List.nil_append, List.length_nil, List.length_append]; omega
    · have h1 := toList_length_le (g.get u l)
      have h2 := toList_length_le (g.get u (x + offset))
      have h3 := toList_length_le (g.get (y + offset) l)
      simp only [Grid.peek_diagonal, hy, hx, List.length_append]; omega

lemma toList_length_eq_one {o : Option β} (h : o.isSome) :
    o.toList.length = 1 := by
  cases o with
  | none => simp at h
  | some b => simp

/-- Claim C5: `peek_linear` is the concatenation of `peek_horizontal` and
`peek_vertical`, `peek_all` the concatenation of `peek_linear` and
`peek_diagonal`, and no deduplication is performed: at any in-bounds
coordinate with offset 0 the result of `peek_all` is eight copies of the
same cell, hence contains duplicates. -/
theorem peek_compositions (g : Grid α) (y x offset : Nat) (c : Cell α) :
    g.peek_linear y x offset =
      g.peek_horizontal y x offset ++ g.peek_vertical y x offset ∧
    g.peek_all y x offset =
      g.peek_linear y x offset ++ g.peek_diagonal y x offset ∧
    (g.get y x = some c →
      g.peek_all y x 0 = List.replicate 8 c ∧ ¬ (g.peek_all y x 0).Nodup) := by
  refine ⟨rfl, rfl, fun h => ?_⟩
  have hx0 : checked_sub x 0 = some x := by simp [checked_sub]
  have hy0 : checked_sub y 0 = some y := by simp [checked_sub]
  have e : g.peek_all y x 0 = List.replicate 8 c := by
    simp [Grid.peek_all, Grid.peek_linear, Grid.peek_horizontal,
      Grid.peek_vertical, Grid.peek_diagonal, hx0, hy0, h,
      List.replicate_succ]
  refine ⟨e, ?_⟩
  rw [e, List.nodup_replicate]
  omega

/-- Witness for C5 at a concrete grid and cell: at (0, 0) with offset 0 on
`gridW` the centre cell is present and `peek_all` yields it eight times. -/
theorem peek_compositions_witness :
    gridW.peek_all 0 0 0 = List.replicate 8 (⟨0, 0, 'a'⟩ : Cell Char) ∧
    ¬ (gridW.peek_all 0 0 0).Nodup :=
  (peek_compositions gridW 0 0 0 ⟨0, 0, 'a'⟩).2.2 (by decide)

/-- Claim C6: at an interior point whose eight neighbours at distance
`offset` all exist, `peek_horizontal` returns exactly 2 cells,
`peek_vertical` exactly 2, `peek_linear` exactly 4, `peek_diagonal` exactly
4, and `peek_all` exactly 8. -/
theorem interior_peek_counts (g : Grid α) (y x offset : Nat)
    (hy : offset ≤ y) (hx : offset ≤ x)
    (h1 : (g.get (y - offset) (x - offset)).isSome = true)
    (h2 : (g.get (y - offset) x).isSome = true)
    (h3 : (g.get (y - offset) (x + offset)).isSome = true)
    (h4 : (g.get y (x - offset)).isSome = true)
    (h5 : (g.get y (x + offset)).isSome = true)
    (h6 : (g.get (y + offset) (x - offset)).isSome = true)
    (h7 : (g.get (y + offset) x).isSome = true)
    (h8 : (g.get (y + offset) (x + offset)).isSome = true) :
    (g.peek_horizontal y x offset).length = 2 ∧
    (g.peek_vertical y x offset).length = 2 ∧
    (g.peek_linear y x offset).length = 4 ∧
    (g.peek_diagonal y x offset).length = 4 ∧
    (g.peek_all y x offset).length = 8 := by
  have hh : (g.peek_horizontal y x offset).length = 2 := by
    simp only [Grid.peek_horizontal, checked_sub_eq_some hx,
      List.length_append, toList_length_eq_one h4, toList_length_eq_one h5]
  have hv : (g.peek_vertical y x offset).length = 2 := by
    simp only [Grid.peek_vertical, checked_sub_eq_some hy,
      List.length_append, toList_length_eq_one h2, toList_length_eq_one h7]
  have hl : (g.peek_linear y x offset).length = 4 := by
    simp only [Grid.peek_linear, List.length_append, hh, hv]
  have hd : (g.peek_diagonal y x offset).length = 4 := by
    simp only [Grid.peek_diagonal, checked_sub_eq_some hy,
      checked_sub_eq_some hx, List.length_append, toList_length_eq_one h1,
      toList_length_eq_one h3, toList_length_eq_one h6,
      toList_length_eq_one h8]
  have ha : (g.peek_all y x offset).length = 8 := by
    simp only [Grid.peek_all, List.length_append, hl, hd]
  exact ⟨hh, hv, hl, hd, ha⟩

/-- Witness for C6: the centre of the 3×3 grid `gridW3` at offset 1 has all
eight neighbours, and the peeks return 2, 2, 4, 4 and 8 cells. -/
theorem interior_peek_counts_witness :
    (gridW3.peek_horizontal 1 1 1).length = 2 ∧
    (gridW3.peek_vertical 1 1 1).length = 2 ∧
    (gridW3.peek_linear 1 1 1).length = 4 ∧
    (gridW3.peek_diagonal 1 1 1).length = 4 ∧
    (gridW3.peek_all 1 1 1).length = 8 :=
  interior_peek_counts gridW3 1 1 1 (by decide) (by decide) (by decide)
    (by decide) (by decide) (by decide) (by decide) (by decide) (by decide)
    (by decide)

lemma enumMap_get? (f : Nat × β → γ) (l : List β) (i : Nat) :
    (l.enum.map f).get? i = (l.get? i).map fun b => f (i, b) := by
  rw [List.get?_map, List.get?_enum]
  cases l.get? i <;> rfl

lemma fromStringChar_data_get? (text : List Char) (y : Nat) :
    (fromStringChar text).data.get? y =
      ((rustLines text).get? y).map fun line =>
        line.enum.map fun q => (⟨y, q.1, q.2⟩ : Cell Char) := by
  simp only [fromStringChar]
  exact enumMap_get? _ _ _

lemma fromStringChar_get (text : List Char) (y x : Nat) :
    (fromStringChar text).get y x =
      ((rustLines text).get? y).bind fun line =>
        (line.get? x).map fun ch => (⟨y, x, ch⟩ : Cell Char) := by
  rw [Grid.get, fromStringChar_data_get?]
  cases hl : (rustLines text).get? y with
  | none => rfl
  | some line =>
    show ((line.enum.map fun q => (⟨y, q.1, q.2⟩ : Cell Char)).get? x) = _
    exact enumMap_get? _ _ _

/-- Claim C2: on a grid built from text, `get (row, col)` returns the stored
cell, whose `.y` and `.x` fields equal the queried coordinates, whenever the
row exists and the column is inside that row, and returns `none` whenever
the row is beyond the number of rows or the column beyond that row's length
(ragged rows included).  `get` is a pure function, so it has no side
effects. -/
theorem get_in_bounds_spec (text : List Char) (y x : Nat) :
    (∀ row, (fromStringChar text).data.get? y = some row → x < row.length →
      ∃ c, (fromStringChar text).get y x = some c ∧ c.y = y ∧ c.x = x) ∧
    ((fromStringChar text).data.length ≤ y →
      (fromStringChar text).get y x = none) ∧
    (∀ row, (fromStringChar text).data.get? y = some row → row.length ≤ x →
      (fromStringChar text).get y x = none) := by
  refine ⟨?_, ?_, ?_⟩
  · intro row hrow hx
    rw [fromStringChar_data_get?] at hrow
    rcases Option.map_eq_some'.mp hrow with ⟨line, hline, hrow2⟩
    have hlen : row.length = line.length := by
      rw [← hrow2, List.length_map, List.enum_length]
    obtain ⟨ch, hch⟩ : ∃ ch, line.get? x = some ch := by
      cases hch : line.get? x with
      | none => rw [List.get?_eq_none] at hch; omega
      | some ch => exact ⟨ch, rfl⟩
    refine ⟨⟨y, x, ch⟩, ?_, rfl, rfl⟩
    rw [fromStringChar_get, hline]
    show (line.get? x).map _ = _
    rw [hch]
    rfl
  · intro hy
    rw [Grid.get, List.get?_eq_none.mpr hy]
    rfl
  · intro row hrow hx
    rw [Grid.get, hrow]
    show row.get? x = none
    exact List.get?_eq_none.mpr hx

/-- Witness for C2 on the concrete grid `gridW` (built from `"ab\ncd"`):
an in-bounds lookup, a row out of range, and a column out of range. -/
theorem get_in_bounds_spec_witness :
    (∃ c, gridW.get 0 1 = some c ∧ c.y = 0 ∧ c.x = 1) ∧
    gridW.get 5 0 = none ∧
    gridW.get 0 7 = none :=
  ⟨(get_in_bounds_spec ("ab\ncd".toList) 0 1).1
      [⟨0, 0, 'a'⟩, ⟨0, 1, 'b'⟩] (by decide) (by decide),
   (get_in_bounds_spec ("ab\ncd".toList) 5 0).2.1 (by decide),
   (get_in_bounds_spec ("ab\ncd".toList) 0 7).2.2
      [⟨0, 0, 'a'⟩, ⟨0, 1, 'b'⟩] (by decide) (by decide)⟩

lemma mapExcept_ok_get? {f : α → Except ε β} :
    ∀ {l : List α} {r : List β}, mapExcept f l = Except.ok r →
      ∀ i, r.get? i = (l.get? i).bind fun a => (f a).toOption := by
  intro l
  induction l with
  | nil =>
    intro r h i
    rw [mapExcept] at h
    cases h
    rfl
  | cons a l ih =>
    intro r h i
    rw [mapExcept] at h
    cases hfa : f a with
    | error e => rw [hfa] at h; cases h
    | ok b =>
      rw [hfa] at h
      cases hml : mapExcept f l with
      | error e => rw [hml] at h; cases h
      | ok bs =>
        rw [hml] at h
        cases h
        cases i with
        | zero => simp [hfa, Except.toOption]
        | succ i => simpa using ih hml i

lemma mapExcept_ok_iff {f : α → Except ε β} {l : List α} :
    (∃ r, mapExcept f l = Except.ok r) ↔ ∀ a ∈ l, ∃ b, f a = Except.ok b := by
  induction l with
  | nil => simp [mapExcept]
  | cons a l ih =>
    constructor
    · intro ⟨r, h⟩ a2 ha2
      rw [mapExcept] at h
      cases hfa : f a with
      | error e => rw [hfa] at h; cases h
      | ok b =>
        rw [hfa] at h
        cases hml : mapExcept f l with
        | error e => rw [hml] at h; cases h
        | ok bs =>
          rcases List.mem_cons.mp ha2 with rfl | ha2
          · exact ⟨b, hfa⟩
          · exact ih.mp ⟨bs, hml⟩ a2 ha2
    · intro h
      obtain ⟨b, hb⟩ := h a (List.mem_cons_self a l)
      obtain ⟨bs, hbs⟩ := ih.mpr fun a2 ha2 => h a2 (List.mem_cons_of_mem a ha2)
      exact ⟨b :: bs, by rw [mapExcept, hb, hbs]⟩

lemma mapExcept_error {f : α → Except ε β} :
    ∀ {l : List α} {e : ε}, mapExcept f l = Except.error e →
      ∃ a ∈ l, f a = Except.error e := by
  intro l
  induction l with
  | nil => intro e h; rw [mapExcept] at h; cases h
  | cons a l ih =>
    intro e h
    rw [mapExcept] at h
    cases hfa : f a with
    | error e2 =>
      rw [hfa] at h
      cases h
      exact ⟨a, List.mem_cons_self a l, hfa⟩
    | ok b =>
      rw [hfa] at h
      cases hml : mapExcept f l with
      | error e2 =>
        rw [hml] at h
        cases h
        obtain ⟨a2, ha2, hfa2⟩ := ih hml
        exact ⟨a2, List.mem_cons_of_mem a ha2, hfa2⟩
      | ok bs => rw [hml] at h; cases h

lemma digitCell_ok {y x : Nat} {ch : Char} {c : Cell Int}
    (h : digitCell y x ch = Except.ok c) :
    ∃ d, toDigit10 ch = some d ∧ c = ⟨y, x, (d : Int)⟩ := by
  rw [digitCell] at h
  cases hd : toDigit10 ch with
  | none => rw [hd] at h; cases h
  | some d =>
    rw [hd] at h
    cases h
    exact ⟨d, rfl, rfl⟩

lemma fromStringI32_ok_data {text : List Char} {g : Grid Int}
    (h : fromStringI32 text = Except.ok g) :
    mapExcept digitRow (rustLines text).enum = Except.ok g.data := by
  rw [fromStringI32] at h
  cases hm : mapExcept digitRow (rustLines text).enum with
  | error e => rw [hm] at h; cases h
  | ok rows => rw [hm] at h; cases h; rfl

lemma fromStringI32_ok_get {text : List Char} {g : Grid Int}
    (h : fromStringI32 text = Except.ok g) (y x : Nat) {c : Cell Int}
    (hget : g.get y x = some c) :
    ∃ line ch d, (rustLines text).get? y = some line ∧
      line.get? x = some ch ∧ toDigit10 ch = some d ∧
      c = ⟨y, x, (d : Int)⟩ := by
  rw [Grid.get] at hget
  rcases Option.bind_eq_some.mp hget with ⟨row, hrow, hcell⟩
  have hr := mapExcept_ok_get? (fromStringI32_ok_data h) y
  rw [hrow, List.get?_enum] at hr
  cases hl : (rustLines text).get? y with
  | none => rw [hl] at hr; cases hr
  | some line =>
    rw [hl] at hr
    have hrowx : digitRow (y, line) = Except.ok row := by
      cases hdr : digitRow (y, line) with
      | error e => rw [show (Option.map (fun a => (y, a)) (some line)) =
          some (y, line) from rfl] at hr; simp [hdr, Except.toOption] at hr
      | ok row2 =>
        rw [show (Option.map (fun a => (y, a)) (some line)) =
          some (y, line) from rfl] at hr
        simp only [Option.some_bind, hdr, Except.toOption] at hr
        cases hr
        rfl
    have hc := mapExcept_ok_get? hrowx x
    rw [hcell, List.get?_enum] at hc
    cases hlx : line.get? x with
    | none => rw [hlx] at hc; cases hc
    | some ch =>
      rw [hlx] at hc
      have hcx : digitCell y x ch = Except.ok c := by
        cases hdc : digitCell y x ch with
        | error e =>
          rw [show (Option.map (fun a => (x, a)) (some ch)) =
            some (x, ch) from rfl] at hc
          simp [hdc, Except.toOption] at hc
        | ok c2 =>
          rw [show (Option.map (fun a => (x, a)) (some ch)) =
            some (x, ch) from rfl] at hc
          simp only [Option.some_bind, hdc, Except.toOption] at hc
          cases hc
          rfl
      obtain ⟨d, hd, hcd⟩ := digitCell_ok hcx
      exact ⟨line, ch, d, rfl, hlx, hd, hcd⟩

lemma fromStringChar_WF (text : List Char) : (fromStringChar text).WF := by
  intro y x c h
  rw [fromStringChar_get] at h
  rcases Option.bind_eq_some.mp h with ⟨line, _, hc⟩
  rcases Option.map_eq_some'.mp hc with ⟨ch, _, hcc⟩
  rw [← hcc]
  exact ⟨rfl, rfl⟩

lemma fromStringI32_WF {text : List Char} {g : Grid Int}
    (h : fromStringI32 text = Except.ok g) : g.WF := by
  intro y x c hget
  obtain ⟨line, ch, d, _, _, _, hcd⟩ := fromStringI32_ok_get h y x hget
  rw [hcd]
  exact ⟨rfl, rfl⟩

lemma exists_get_of_mem_peek_horizontal {g : Grid α} {y x offset : Nat}
    {c : Cell α} (h : c ∈ g.peek_horizontal y x offset) :
    ∃ y2 x2, g.get y2 x2 = some c := by
  rw [Grid.peek_horizontal] at h
  rcases hcs : checked_sub x offset with _ | l <;> rw [hcs] at h <;>
    simp only [List.nil_append, List.mem_append] at h
  · exact ⟨y, x + offset, eq_some_of_mem_toList h⟩
  · rcases h with h | h
    · exact ⟨y, l, eq_some_of_mem_toList h⟩
    · exact ⟨y, x + offset, eq_some_of_mem_toList h⟩

lemma exists_get_of_mem_peek_vertical {g : Grid α} {y x offset : Nat}
    {c : Cell α} (h : c ∈ g.peek_vertical y x offset) :
    ∃ y2 x2, g.get y2 x2 = some c := by
  rw [Grid.peek_vertical] at h
  rcases hcs : checked_sub y offset with _ | u <;> rw [hcs] at h <;>
    simp only [List.nil_append, List.mem_append] at h
  · exact ⟨y + offset, x, eq_some_of_mem_toList h⟩
  · rcases h with h | h
    · exact ⟨u, x, eq_some_of_mem_toList h⟩
    · exact ⟨y + offset, x, eq_some_of_mem_toList h⟩

lemma exists_get_of_mem_peek_diagonal {g : Grid α} {y x offset : Nat}
    {c : Cell α} (h : c ∈ g.peek_diagonal y x offset) :
    ∃ y2 x2, g.get y2 x2 = some c := by
  rw [Grid.peek_diagonal] at h
  rcases hy : checked_sub y offset with _ | u <;>
    rcases hx : checked_sub x offset with _ | l <;>
    rw [hy, hx] at h <;>
    simp only [List.nil_append, List.append_nil, List.mem_append,
      List.not_mem_nil, or_false, false_or] at h
  · exact ⟨y + offset, x + offset, eq_some_of_mem_toList h⟩
  · rcases h with h | h
    · exact ⟨y + offset, l, eq_some_of_mem_toList h⟩
    · exact ⟨y + offset, x + offset, eq_some_of_mem_toList h⟩
  · rcases h with h | h
    · exact ⟨u, x + offset, eq_some_of_mem_toList h⟩
    · exact ⟨y + offset, x + offset, eq_some_of_mem_toList h⟩
  · rcases h with ((h | h) | h) | h
    · exact ⟨u, l, eq_some_of_mem_toList h⟩
    · exact ⟨u, x + offset, eq_some_of_mem_toList h⟩
    · exact ⟨y + offset, l, eq_some_of_mem_toList h⟩
    · exact ⟨y + offset, x + offset, eq_some_of_mem_toList h⟩

lemma exists_get_of_mem_any_peek {g : Grid α} {y x offset : Nat} {c : Cell α}
    (h : c ∈ g.peek_horizontal y x offset ∨ c ∈ g.peek_vertical y x offset ∨
      c ∈ g.peek_linear y x offset ∨ c ∈ g.peek_diagonal y x offset ∨
      c ∈ g.peek_all y x offset) :
    ∃ y2 x2, g.get y2 x2 = some c := by
  have hlin : c ∈ g.peek_linear y x offset → ∃ y2 x2, g.get y2 x2 = some c := by
    intro hm
    rcases List.mem_append.mp hm with hm | hm
    · exact exists_get_of_mem_peek_horizontal hm
    · exact exists_get_of_mem_peek_vertical hm
  rcases h with h | h | h | h | h
  · exact exists_get_of_mem_peek_horizontal h
  · exact exists_get_of_mem_peek_vertical h
  · exact hlin h
  · exact exists_get_of_mem_peek_diagonal h
  · rcases List.mem_append.mp h with h | h
    · exact hlin h
    · exact exists_get_of_mem_peek_diagonal h

lemma WF.get_self {g : Grid α} (hw : g.WF) {c : Cell α}
    (h : ∃ y2 x2, g.get y2 x2 = some c) : g.get c.y c.x = some c := by
  obtain ⟨y2, x2, h⟩ := h
  obtain ⟨hy, hx⟩ := hw y2 x2 c h
  rw [hy, hx]
  exact h

/-- Claim C9: on a grid built by `from_string` in either mode, every cell
returned by any of the five peek operations is a cell actually stored in
the grid at its own coordinates: `get c.y c.x` returns exactly `c`; no peek
fabricates a cell that is not in the grid. -/
theorem peeks_return_stored_cells (text : List Char) (y x offset : Nat) :
    (∀ c : Cell Char,
      (c ∈ (fromStringChar text).peek_horizontal y x offset ∨
       c ∈ (fromStringChar text).peek_vertical y x offset ∨
       c ∈ (fromStringChar text).peek_linear y x offset ∨
       c ∈ (fromStringChar text).peek_diagonal y x offset ∨
       c ∈ (fromStringChar text).peek_all y x offset) →
      (fromStringChar text).get c.y c.x = some c) ∧
    (∀ (g : Grid Int) (c : Cell Int), fromStringI32 text = Except.ok g →
      (c ∈ g.peek_horizontal y x offset ∨ c ∈ g.peek_vertical y x offset ∨
       c ∈ g.peek_linear y x offset ∨ c ∈ g.peek_diagonal y x offset ∨
       c ∈ g.peek_all y x offset) →
      g.get c.y c.x = some c) := by
  constructor
  · intro c h
    exact WF.get_self (fromStringChar_WF text) (exists_get_of_mem_any_peek h)
  · intro g c hok h
    exact WF.get_self (fromStringI32_WF hok) (exists_get_of_mem_any_peek h)

/-- Witness for C9: a cell returned by `peek_all` on the concrete grid
`gridW` is stored at its own coordinates, and likewise on the digit grid
built from `"12\n34"`. -/
theorem peeks_return_stored_cells_witness :
    gridW.get (Cell.y ⟨0, 1, 'b'⟩) (Cell.x ⟨0, 1, 'b'⟩) =
      some ⟨0, 1, 'b'⟩ ∧
    (∀ g : Grid Int, fromStringI32 ("12\n34".toList) = Except.ok g →
      (⟨0, 1, (2 : Int)⟩ : Cell Int) ∈ g.peek_horizontal 0 0 1 →
      g.get 0 1 = some ⟨0, 1, (2 : Int)⟩) :=
  ⟨(peeks_return_stored_cells ("ab\ncd".toList) 0 0 1).1 ⟨0, 1, 'b'⟩
      (Or.inl (by decide)),
   fun g hok hm =>
     (peeks_return_stored_cells ("12\n34".toList) 0 0 1).2 g
       ⟨0, 1, (2 : Int)⟩ hok (Or.inl hm)⟩

lemma stripLeadCR_subset (l : List Char) : stripLeadCR l ⊆ l := by
  cases l with
  | nil => exact fun _ h => h
  | cons c rest =>
    by_cases hc : c = '\r'
    · have he : stripLeadCR (c :: rest) = rest := by
        simp [stripLeadCR, hc]
      rw [he]
      exact List.subset_cons_self c rest
    · have he : stripLeadCR (c :: rest) = c :: rest := by
        simp [stripLeadCR, hc]
      rw [he]
      exact fun _ h => h

lemma mem_of_mem_linesAux :
    ∀ (text acc l : List Char), l ∈ linesAux text acc →
      ∀ ch ∈ l, ch ∈ text ∨ ch ∈ acc := by
  intro text
  induction text with
  | nil =>
    intro acc l hl ch hch
    rw [linesAux] at hl
    rcases List.mem_singleton.mp hl with rfl
    right
    exact List.mem_reverse.mp hch
  | cons a rest ih =>
    intro acc l hl ch hch
    rw [linesAux] at hl
    by_cases ha : a = '\n'
    · rw [if_pos ha] at hl
      rcases List.mem_cons.mp hl with rfl | hl
      · right
        exact stripLeadCR_subset acc (List.mem_reverse.mp hch)
      · rcases ih [] l hl ch hch with h | h
        · exact Or.inl (List.mem_cons_of_mem a h)
        · simp at h
    · rw [if_neg ha] at hl
      rcases ih (a :: acc) l hl ch hch with h | h
      · exact Or.inl (List.mem_cons_of_mem a h)
      · rcases List.mem_cons.mp h with rfl | h
        · exact Or.inl (List.mem_cons_self ch rest)
        · exact Or.inr h

lemma mem_linesAux_of_mem_rustLines {text l : List Char}
    (hl : l ∈ rustLines text) : l ∈ linesAux text [] := by
  rw [rustLines] at hl
  split at hl
  · exact List.dropLast_subset _ hl
  · exact hl

lemma mem_text_of_mem_rustLines {text l : List Char} (hl : l ∈ rustLines text)
    {ch : Char} (hch : ch ∈ l) : ch ∈ text := by
  rcases mem_of_mem_linesAux text [] l (mem_linesAux_of_mem_rustLines hl)
      ch hch with h | h
  · exact h
  · simp at h

lemma snd_mem_of_mem_enum {l : List β} {p : Nat × β} (h : p ∈ l.enum) :
    p.2 ∈ l := by
  rw [← List.enum_map_snd l]
  exact List.mem_map_of_mem _ h

lemma exists_enum_of_mem {l : List β} {b : β} (h : b ∈ l) :
    ∃ p ∈ l.enum, p.2 = b := by
  rw [← List.enum_map_snd l] at h
  exact List.mem_map.mp h

lemma digitCell_error {y x : Nat} {ch e : Char}
    (h : digitCell y x ch = Except.error e) :
    e = ch ∧ toDigit10 ch = none := by
  rw [digitCell] at h
  cases hd : toDigit10 ch with
  | none => rw [hd] at h; cases h; exact ⟨rfl, rfl⟩
  | some d => rw [hd] at h; cases h

lemma digitCell_ok_exists_iff {y x : Nat} {ch : Char} :
    (∃ b, digitCell y x ch = Except.ok b) ↔ (toDigit10 ch).isSome = true := by
  rw [digitCell]
  cases hd : toDigit10 ch with
  | none => simp
  | some d => simp

lemma fromStringI32_error_data {text : List Char} {e : Char}
    (h : fromStringI32 text = Except.error e) :
    mapExcept digitRow (rustLines text).enum = Except.error e := by
  rw [fromStringI32] at h
  cases hm : mapExcept digitRow (rustLines text).enum with
  | error e2 => rw [hm] at h; cases h; rfl
  | ok rows => rw [hm] at h; cases h

/-- Claim C7: digit-parsing construction fails carrying the offending
character exactly when some parsed character is not a base-10 digit
(`"12a"` fails referencing `'a'`), is all-or-nothing (an `Except` value is
either an error or a complete grid), and on success every cell's value is
its source character parsed as an integer. -/
theorem digit_parsing_spec (text : List Char) :
    fromStringI32 ("12a".toList) = Except.error 'a' ∧
    (∀ ch, fromStringI32 text = Except.error ch →
      ch ∈ text ∧ toDigit10 ch = none) ∧
    ((∃ g, fromStringI32 text = Except.ok g) ↔
      ∀ line ∈ rustLines text, ∀ ch ∈ line, (toDigit10 ch).isSome = true) ∧
    (∀ (g : Grid Int) (y x : Nat) (c : Cell Int),
      fromStringI32 text = Except.ok g → g.get y x = some c →
      ∃ line ch d, (rustLines text).get? y = some line ∧
        line.get? x = some ch ∧ toDigit10 ch = some d ∧
        c.value = (d : Int)) := by
  refine ⟨by rfl, ?_, ?_, ?_⟩
  · intro ch h
    obtain ⟨p, hp, hdr⟩ := mapExcept_error (fromStringI32_error_data h)
    obtain ⟨q, hq, hdc⟩ := mapExcept_error hdr
    obtain ⟨rfl, hnd⟩ := digitCell_error hdc
    refine ⟨?_, hnd⟩
    exact mem_text_of_mem_rustLines (snd_mem_of_mem_enum hp)
      (snd_mem_of_mem_enum hq)
  · constructor
    · intro ⟨g, hok⟩ line hline ch hch
      have hall := mapExcept_ok_iff.mp ⟨g.data, fromStringI32_ok_data hok⟩
      obtain ⟨p, hp, hp2⟩ := exists_enum_of_mem hline
      obtain ⟨row, hrow⟩ := hall p hp
      simp only [digitRow] at hrow
      have hall2 := mapExcept_ok_iff.mp ⟨row, hrow⟩
      rw [hp2] at hall2
      obtain ⟨q, hq, hq2⟩ := exists_enum_of_mem hch
      obtain ⟨b, hb⟩ := hall2 q hq
      rw [hq2] at hb
      exact digitCell_ok_exists_iff.mp ⟨b, hb⟩
    · intro hall
      obtain ⟨rows, hrows⟩ :=
        (mapExcept_ok_iff (f := digitRow) (l := (rustLines text).enum)).mpr
          (fun p hp =>
        mapExcept_ok_iff.mpr (fun q hq =>
          digitCell_ok_exists_iff.mpr
            (hall p.2 (snd_mem_of_mem_enum hp) q.2 (snd_mem_of_mem_enum hq))))
      exact ⟨⟨rows⟩, by rw [fromStringI32, hrows]⟩
  · intro g y x c hok hget
    obtain ⟨line, ch, d, h1, h2, h3, h4⟩ := fromStringI32_ok_get hok y x hget
    exact ⟨line, ch, d, h1, h2, h3, by rw [h4]⟩

/-- Witness for C7: the error case on `"1a"`, the success case on `"12"`,
and the cell-value correspondence at (0, 1) of the grid built from
`"12"`. -/
theorem digit_parsing_spec_witness :
    ('a' ∈ "1a".toList ∧ toDigit10 'a' = none) ∧
    (∃ g, fromStringI32 ("12".toList) = Except.ok g) ∧
    (∃ line ch d, (rustLines ("12".toList)).get? 0 = some line ∧
      line.get? 1 = some ch ∧ toDigit10 ch = some d ∧
      Cell.value (⟨0, 1, (2 : Int)⟩ : Cell Int) = (d : Int)) :=
  ⟨(digit_parsing_spec ("1a".toList)).2.1 'a' (by rfl),
   (digit_parsing_spec ("12".toList)).2.2.1.mpr (by decide),
   (digit_parsing_spec ("12".toList)).2.2.2
     ⟨[[⟨0, 0, (1 : Int)⟩, ⟨0, 1, (2 : Int)⟩]]⟩ 0 1 ⟨0, 1, (2 : Int)⟩
     (by rfl) (by rfl)⟩

lemma linesAux_ne_nil (text acc : List Char) : linesAux text acc ≠ [] := by
  induction text generalizing acc with
  | nil => simp [linesAux]
  | cons a rest ih =>
    rw [linesAux]
    by_cases ha : a = '\n'
    · rw [if_pos ha]
      exact List.cons_ne_nil _ _
    · rw [if_neg ha]
      exact ih _

lemma getLast?_cons_of_ne_nil {l : List β} (a : β) (h : l ≠ []) :
    (a :: l).getLast? = l.getLast? := by
  cases l with
  | nil => exact absurd rfl h
  | cons b m => rw [List.getLast?_cons, List.getLast?_cons]; rfl

lemma linesAux_append_nl_length (xs : List Char) :
    ∀ acc, (linesAux (xs ++ ['\n']) acc).length =
      (linesAux xs acc).length + 1 := by
  induction xs with
  | nil => intro acc; simp [linesAux]
  | cons a rest ih =>
    intro acc
    rw [List.cons_append, linesAux, linesAux]
    by_cases ha : a = '\n'
    · rw [if_pos ha, if_pos ha]
      simp [ih]
    · rw [if_neg ha, if_neg ha]
      exact ih _

lemma linesAux_append_nl_getLast? (xs : List Char) :
    ∀ acc, (linesAux (xs ++ ['\n']) acc).getLast? = some [] := by
  induction xs with
  | nil => intro acc; simp [linesAux]
  | cons a rest ih =>
    intro acc
    rw [List.cons_append, linesAux]
    by_cases ha : a = '\n'
    · rw [if_pos ha, getLast?_cons_of_ne_nil _ (linesAux_ne_nil _ _)]
      exact ih []
    · rw [if_neg ha]
      exact ih _

lemma linesAux_getLast?_ne_empty (xs : List Char) :
    xs ≠ [] → xs.getLast? ≠ some '\n' →
      ∀ acc, ∃ l, (linesAux xs acc).getLast? = some l ∧ l ≠ [] := by
  induction xs with
  | nil => intro h; exact absurd rfl h
  | cons a rest ih =>
    intro _ hlast acc
    rw [linesAux]
    cases rest with
    | nil =>
      have ha : a ≠ '\n' := by
        intro hc
        rw [hc] at hlast
        exact hlast (by simp)
      rw [if_neg ha, linesAux]
      exact ⟨(a :: acc).reverse, by simp, by simp⟩
    | cons b m =>
      rw [getLast?_cons_of_ne_nil a (List.cons_ne_nil b m)] at hlast
      by_cases ha : a = '\n'
      · rw [if_pos ha, getLast?_cons_of_ne_nil _ (linesAux_ne_nil _ _)]
        exact ih (List.cons_ne_nil b m) hlast []
      · rw [if_neg ha]
        exact ih (List.cons_ne_nil b m) hlast _

lemma rustLines_eq_linesAux {text : List Char} (h : text ≠ [])
    (h2 : text.getLast? ≠ some '\n') : rustLines text = linesAux text [] := by
  obtain ⟨l, hl, hne⟩ := linesAux_getLast?_ne_empty text h h2 []
  rw [rustLines, if_neg (by rw [hl]; simpa using hne)]

lemma rustLines_cons_nl (rest : List Char) :
    rustLines ('\n' :: rest) = [] :: rustLines rest := by
  have h1 : linesAux ('\n' :: rest) [] = [] :: linesAux rest [] := by
    rw [linesAux, if_pos rfl]
    rfl
  have hne := linesAux_ne_nil rest []
  rw [rustLines, rustLines, h1, getLast?_cons_of_ne_nil _ hne]
  by_cases hc : (linesAux rest []).getLast? = some []
  · rw [if_pos hc, if_pos hc]
    cases hL : linesAux rest [] with
    | nil => exact absurd hL hne
    | cons s L2 => rw [List.dropLast_cons₂]
  · rw [if_neg hc, if_neg hc]

/-- Claim C10: character-identity construction is a total function (it can
never fail) producing one row per line of the line iterator: the empty text
gives zero rows, a text beginning with a newline gives an empty row 0 and
shifts every later line down by one, and a single trailing newline on a
nonempty text not already ending in a newline adds no extra row. -/
theorem from_string_char_lines (text rest : List Char) :
    (fromStringChar text).data.length = (rustLines text).length ∧
    rustLines ([] : List Char) = [] ∧
    rustLines ('\n' :: rest) = [] :: rustLines rest ∧
    (fromStringChar ('\n' :: rest)).data.get? 0 = some [] ∧
    (text ≠ [] → text.getLast? ≠ some '\n' →
      (rustLines (text ++ ['\n'])).length = (rustLines text).length) := by
  refine ⟨?_, by decide, rustLines_cons_nl rest, ?_, ?_⟩
  · simp [fromStringChar, List.length_map, List.enum_length]
  · rw [fromStringChar_data_get?, rustLines_cons_nl]
    rfl
  · intro h1 h2
    rw [rustLines_eq_linesAux h1 h2, rustLines,
      if_pos (linesAux_append_nl_getLast? text []),
      List.length_dropLast, linesAux_append_nl_length text []]
    simp

/-- Witness for C10: appending one newline to `"ab"` leaves the number of
rows unchanged. -/
theorem from_string_char_lines_witness :
    (rustLines ("ab".toList ++ ['\n'])).length =
      (rustLines ("ab".toList)).length :=
  (from_string_char_lines ("ab".toList) []).2.2.2.2 (by decide) (by decide)

set_option maxRecDepth 100000 in
/-- Counterexample to claim C8 as stated: the bundled sample text opens
with a newline, so the grid's row 0 is empty — the run "467" cannot lie at
row 0 — and position (1, 3) holds `'.'`, not `'*'`; the first extracted
number's cells all sit at row 1. -/
theorem sample_run_not_at_row0 :
    sampleGrid.data.get? 0 = some [] ∧
    sampleGrid.get 1 3 = some ⟨1, 3, '.'⟩ ∧
    (extractNumbers sampleGrid).get? 0 =
      some ⟨[⟨1, 0, '4'⟩, ⟨1, 1, '6'⟩, ⟨1, 2, '7'⟩]⟩ := by
  refine ⟨?_, ?_, ?_⟩ <;> rfl

set_option maxRecDepth 100000 in
/-- Claim C8 as amended: in the grid built from the bundled sample text,
the contiguous digit run "467" (the first extracted number) lies at row 1
and reports `symbol_adjacent = true` because it touches `'*'` diagonally at
(2, 3), while the run "114" (the second extracted number) at row 1 reports
`symbol_adjacent = false`. -/
theorem sample_run_adjacency :
    (extractNumbers sampleGrid).get? 0 =
      some ⟨[⟨1, 0, '4'⟩, ⟨1, 1, '6'⟩, ⟨1, 2, '7'⟩]⟩ ∧
    (extractNumbers sampleGrid).get? 1 =
      some ⟨[⟨1, 5, '1'⟩, ⟨1, 6, '1'⟩, ⟨1, 7, '4'⟩]⟩ ∧
    sampleGrid.get 2 3 = some ⟨2, 3, '*'⟩ ∧
    (⟨2, 3, '*'⟩ : Cell Char) ∈
      Number.peekAllDedup ⟨[⟨1, 0, '4'⟩, ⟨1, 1, '6'⟩, ⟨1, 2, '7'⟩]⟩
        sampleGrid ∧
    Number.symbol_adjacent ⟨[⟨1, 0, '4'⟩, ⟨1, 1, '6'⟩, ⟨1, 2, '7'⟩]⟩
      sampleGrid = true ∧
    Number.symbol_adjacent ⟨[⟨1, 5, '1'⟩, ⟨1, 6, '1'⟩, ⟨1, 7, '4'⟩]⟩
      sampleGrid = false := by
  refine ⟨?_, ?_, ?_, ?_, ?_, ?_⟩
  · rfl
  · rfl
  · rfl
  · decide
  · rfl
  · rfl

end Gridthings
